import Mathlib

/-!
# Verification of the RooAddModel mixture-composition core

Shallow embedding of `src/roofitcore/src/RooAddModel.cxx`: a composite
resolution model `c_1*MODEL_1 + ... + (1 - sum c_i)*MODEL_n`, its analytic
integration negotiation, the integration-code registry, and basis
(convolution) propagation.  Real values (`Double_t`) are embedded as `Rat`,
integer codes (`Int_t`) as `Int`, variable sets (`RooArgSet` of dependents)
as `Finset Nat` of variable identifiers.
-/

/-- A `RooArgSet` of variables, identified by natural numbers. -/
abbrev VarSet := Finset Nat

/-- Normalization-set argument (`const RooArgSet* normSet`): a possibly
null pointer to a variable set. -/
abbrev NSet := Option VarSet

/-- A basis function (`RooFormulaVar* basis`); `primaryVar` is the
variable returned by `basis->findServer(0)`, `bname` its object name. -/
structure BasisFun where
  primaryVar : Nat
  bname : String

/-- A component resolution model (the external `RooResolutionModel`
collaborator, abstracted by the operations RooAddModel.cxx invokes on it):
`eval` is `evaluate()`/proxy dereference, `normv` is the normalization
(its doc below), `basisCodeFn` is `basisCode(name)`, `tryIntegrate` is
the component's `getAnalyticalIntegralWN(allVars, subAnalVars, normSet)`
returning the capability code and the granted subset `subAnalVars`,
`integrate` is `analyticalIntegralWN(code, normSet)`, `convVarV` is
`convVar()`.  The collaborator is external, so these behaviours are
arbitrary.  Its virtual `convolution(basis, owner)` method returns
another `Model`; to keep this type non-recursive that method is passed
separately (as a function `Model → BasisFun → Model`) to the operations
that dispatch it.

On `normv` — modelled from the spec: the component normalization is the
single operation `normalization(contextSet) -> real` of §6.  The
component's `getNorm` and `getNormSpecial` (RooResolutionModel, not under
src/) are per the spec "functionally identical arithmetic, distinct cache
partition", so both map to this one function. -/
structure Model where
  eval : Rat
  normv : NSet → Rat
  basisCodeFn : String → Int
  tryIntegrate : VarSet → NSet → Int × VarSet
  integrate : Int → NSet → Rat
  convVarV : Nat

/-- The composite (`RooAddModel` instance): the ordered component models
(`_modelProxyList`), the current coefficient values (`_coefProxyList`,
dereferenced), the optional convolution basis (`_basis`), the basis code
(`_basisCode`, 0 = plain density), and the copy flag (`_isCopy`). -/
structure RooAddModel where
  models : List Model
  coefs : List Rat
  basis : Option BasisFun
  basisCodeVal : Int
  isCopy : Bool

/-- The convolution variable `x` of the composite: the base class is
constructed with `((RooResolutionModel*)modelList.at(0))->convVar()`, the
first component's convolution variable (the empty case dereferences a null
pointer in the source and is unreachable behind the constructor). -/
def RooAddModel.convVar (m : RooAddModel) : Nat :=
  match m.models with
  | [] => 0
  | m0 :: _ => m0.convVarV

/-- The running-sum loop shared by `evaluate()` (lines 267-278): walk the
coefficient iterator, pair each coefficient with the next model,
accumulate `value += (*model)*(*coef)` and `lastCoef -= (*coef)`; when
the coefficients are exhausted add the next (last) model weighted by
`lastCoef`.  Returns `(value, lastCoef)`.  The two clauses with too few
models dereference a null iterator result in the source; they are
unreachable for composites accepted by the constructor. -/
def evalVL : List Model → List Rat → Rat → Rat → Rat × Rat
  | m :: ms, c :: cs, value, lastCoef => evalVL ms cs (value + m.eval * c) (lastCoef - c)
  | m :: _, [], value, lastCoef => (value + m.eval * lastCoef, lastCoef)
  | [], [], value, lastCoef => (value, lastCoef)
  | [], _ :: _, value, lastCoef => (value, lastCoef)

/-- `RooAddModel::evaluate()` (lines 254-291): the returned value. -/
def RooAddModel.evaluate (m : RooAddModel) : Rat :=
  (evalVL m.models m.coefs 0 1).1

/-- The derived last weight computed by `evaluate()`. -/
def RooAddModel.evalLastCoef (m : RooAddModel) : Rat :=
  (evalVL m.models m.coefs 0 1).2

/-- `RooAddModel::evaluate()` with its degeneracy diagnostic
(lines 281-287): given the instance's current warning counter
`_errorCount`, returns the value, whether the warning is printed, and the
updated counter.  The source condition is
`(lastCoef<0.0 || lastCoef>1.0) && ++_errorCount<=10`: the counter is
pre-incremented only when the weight is out of range (short-circuit),
and the message is printed only while the incremented counter is at most
10. -/
def RooAddModel.evaluateFull (m : RooAddModel) (errorCount : Nat) : Rat × Bool × Nat :=
  if m.evalLastCoef < 0 ∨ m.evalLastCoef > 1 then
    (m.evaluate, decide (errorCount + 1 ≤ 10), errorCount + 1)
  else
    (m.evaluate, false, errorCount)

/-- The running-sum loop of `RooAddModel::getNorm` (lines 310-325):
accumulates `norm += model->getNorm(nset) * (*coef)` and
`lastCoef -= (*coef)` over the paired components, then adds the last
model's normalization weighted by `lastCoef`.  Returns
`(norm, lastCoef)`. -/
def normVL : List Model → List Rat → NSet → Rat → Rat → Rat × Rat
  | mo :: ms, c :: cs, nset, norm, lastCoef =>
      normVL ms cs nset (norm + mo.normv nset * c) (lastCoef - c)
  | mo :: _, [], nset, norm, lastCoef => (norm + mo.normv nset * lastCoef, lastCoef)
  | [], _, _, norm, lastCoef => (norm, lastCoef)

/-- The running-sum loop of `RooAddModel::getNormSpecial` (lines 359-374),
a textual duplicate of the `getNorm` loop that calls the components'
`getNormSpecial` instead of `getNorm` (both map to `Model.normv`, see its
doc). -/
def normVLSpec : List Model → List Rat → NSet → Rat → Rat → Rat × Rat
  | mo :: ms, c :: cs, nset, norm, lastCoef =>
      normVLSpec ms cs nset (norm + mo.normv nset * c) (lastCoef - c)
  | mo :: _, [], nset, norm, lastCoef => (norm + mo.normv nset * lastCoef, lastCoef)
  | [], _, _, norm, lastCoef => (norm, lastCoef)

/-- `RooAddModel::getNorm(nset)` (lines 294-339).  `generic` is the
inherited `RooAbsPdf::getNorm` path (external base class), taken when the
composite carries no basis. -/
def RooAddModel.getNorm (m : RooAddModel) (generic : NSet → Rat) (nset : NSet) : Rat :=
  match m.basis with
  | none => generic nset
  | some _ => (normVL m.models m.coefs nset 0 1).1

/-- `RooAddModel::getNormSpecial(nset)` (lines 342-387): the duplicate
entry point against a separate cache; same `generic` fallback when no
basis is present. -/
def RooAddModel.getNormSpecial (m : RooAddModel) (generic : NSet → Rat) (nset : NSet) : Rat :=
  match m.basis with
  | none => generic nset
  | some _ => (normVLSpec m.models m.coefs nset 0 1).1

/-- `RooAddModel::basisCode(name)` (lines 229-250), embedded exactly as
written: the local `code` is declared `Bool_t` (C++ `bool`), so the
assignment `code = subCode` collapses the component's `Int_t` code to
`false`/`true` (zero/nonzero), and the flag `first` is initialized `kTRUE`
and never cleared, so every iteration takes the `if (first)` branch and
overwrites `code` with the current component's (collapsed) code.  The
returned `Int_t` is therefore the `0`/`1` image of the LAST component's
code. -/
def RooAddModel.basisCode (m : RooAddModel) (name : String) : Int :=
  let final := m.models.foldl
    (fun (st : Bool × Bool) mo =>
      let subCode := mo.basisCodeFn name
      if st.1 then (st.1, decide (subCode ≠ 0))
      else if subCode = 0 then (st.1, false)
      else st)
    (true, false)
  if final.2 then 1 else 0

/-- The behaviour `RooAddModel::basisCode`'s own documentation
(lines 231-234) promises: "The basis code of the first component model
will be returned, if the basis is supported by all components. Otherwise
0 is returned."  Written from those words, to be compared with the
implementation above. -/
def basisCodeDocumented (models : List Model) (name : String) : Int :=
  if models.all (fun mo => decide (mo.basisCodeFn name ≠ 0)) then
    match models with
    | [] => 0
    | m0 :: _ => m0.basisCodeFn name
  else 0

/-- `RooAddModel::RooAddModel(name, title, modelList, coefList)`
(lines 42-112): fails (`assert(0)`, a ConfigurationError) when the model
list is not exactly one longer than the coefficient list, or when the
models do not all share the convolution variable of the first model
(`refConvVar`).  The `dynamic_cast` type checks hold by construction in
this typed embedding.  A fresh instance has no basis and basis code 0
(`RooResolutionModel` base state) and is not a copy. -/
def mkRooAddModel (modelList : List Model) (coefList : List Rat) : Option RooAddModel :=
  if modelList.length ≠ coefList.length + 1 then none
  else
    match modelList with
    | [] => none
    | m0 :: rest =>
      if rest.all (fun mo => decide (mo.convVarV = m0.convVarV)) then
        some { models := modelList, coefs := coefList, basis := none,
               basisCodeVal := 0, isCopy := false }
      else none

/-- Modelled from the spec: `changeBasis` (`RooResolutionModel`, not
under src/) tags the freshly constructed clone with the basis function
(§4.5 "tags it with the basis"); the composite's basis code becomes its
own `basisCode` of the basis name (glossary: `basisCode = 0` denotes
plain-density use). -/
def RooAddModel.changeBasis (m : RooAddModel) (basis : BasisFun) : RooAddModel :=
  { m with basis := some basis, basisCodeVal := m.basisCode basis.bname }

/-- `RooAddModel::convolution(basis, owner)` (lines 177-225).  `cf` is
the components' virtual `RooResolutionModel::convolution` method
(external dynamic dispatch).  When the basis function's primary variable
(`basis->findServer(0)`) differs from the composite's convolution
variable `x`, returns failure (`0` in the source).  Otherwise builds the
list of per-component convolutions, pairs it with the SAME coefficient
list, constructs a new composite through the raw-list constructor and
tags it with the basis.  (The owner only contributes to the clone's name,
which this embedding does not track.) -/
def RooAddModel.convolution (m : RooAddModel) (cf : Model → BasisFun → Model)
    (basis : BasisFun) : Option RooAddModel :=
  if basis.primaryVar ≠ m.convVar then none
  else
    match mkRooAddModel (m.models.map (fun mo => cf mo basis)) m.coefs with
    | none => none
    | some convSum => some (convSum.changeBasis basis)

/-- Modelled from the spec: the Code Registry `_codeReg`
(`RooAICRegistry`, not under src/): per §4.3 an append-only ordered list
of per-component code arrays; `store(codes) -> index` appends and never
overwrites or evicts, `retrieve(index)` looks a stored array up. -/
structure AICRegistry where
  plans : List (List Int)

/-- `store`: append the code array, return its 0-based position and the
grown registry. -/
def AICRegistry.store (r : AICRegistry) (codes : List Int) : Nat × AICRegistry :=
  (r.plans.length, ⟨r.plans ++ [codes]⟩)

/-- `retrieve`: look up a stored code array; `none` for a position never
stored (a programmer error per §4.3/§7). -/
def AICRegistry.retrieve (r : AICRegistry) (i : Nat) : Option (List Int) :=
  r.plans.get? i

/-- Pass 1 of `RooAddModel::getAnalyticalIntegralWN` (lines 492-514):
starting from `allAnalVars = allVars`, each component is asked for the
subset of `allVars` it can integrate; every requested variable the
component did not report (`!subAnalVars.find(...)`) is removed from
`allAnalVars`. -/
def pass1 (models : List Model) (allVars : VarSet) (nset : NSet) : VarSet :=
  models.foldl
    (fun allAnalVars mo => allAnalVars \ (allVars \ (mo.tryIntegrate allVars nset).2))
    allVars

/-- Pass 2 of `RooAddModel::getAnalyticalIntegralWN` (lines 521-537): the
per-component capability codes for the pruned common set. -/
def pass2Codes (models : List Model) (common : VarSet) (nset : NSet) : List Int :=
  models.map (fun mo => (mo.tryIntegrate common nset).1)

/-- `RooAddModel::getAnalyticalIntegralWN(allVars, analVars, normSet)`
(lines 476-546), with the registry state passed explicitly: returns the
master code, the (possibly extended) caller-supplied output set
`analVars`, and the updated registry.  Disabled (code 0) for a convolved
instance (`_basisCode != 0`); code 0 when the pass-1 intersection is
empty (`allAnalVars.getSize()==0`); code 0 when any pass-2 component
code is 0 (`allOK` false); otherwise `analVars.add(allAnalVars)` and
master code = stored index + 1. -/
def RooAddModel.getAnalyticalIntegralWN (m : RooAddModel) (reg : AICRegistry)
    (allVars : VarSet) (analVars : VarSet) (nset : NSet) : Int × VarSet × AICRegistry :=
  if m.basisCodeVal ≠ 0 then (0, analVars, reg)
  else
    let allAnalVars := pass1 m.models allVars nset
    if allAnalVars.card = 0 then (0, analVars, reg)
    else
      let subCode := pass2Codes m.models allAnalVars nset
      if subCode.any (fun c => decide (c = 0)) then (0, analVars, reg)
      else
        let stored := reg.store subCode
        ((stored.1 : Int) + 1, analVars ∪ allAnalVars, stored.2)

/-- The running-sum loop of `RooAddModel::analyticalIntegralWN`
(lines 561-582): walk coefficients, models and the stored per-component
codes together, accumulate
`value += model->analyticalIntegralWN(subCode[i], normSet) * coefVal` and
`lastCoef -= coefVal`; finally add the last model's integral weighted by
`lastCoef`.  Returns `(value, lastCoef)`; clauses with exhausted lists
mirror out-of-range accesses that are unreachable for negotiated codes on
a well-formed composite. -/
def intVL : List Model → List Rat → List Int → NSet → Rat → Rat → Rat × Rat
  | mo :: ms, c :: cs, k :: ks, nset, value, lastCoef =>
      intVL ms cs ks nset (value + mo.integrate k nset * c) (lastCoef - c)
  | mo :: _, [], k :: _, nset, value, lastCoef =>
      (value + mo.integrate k nset * lastCoef, lastCoef)
  | _, _, _, _, value, lastCoef => (value, lastCoef)

/-- The body of `RooAddModel::analyticalIntegralWN` for a retrieved code
array (lines 561-591): the integral value, and whether the (un-rate-
limited) degeneracy warning of lines 584-589 is printed. -/
def RooAddModel.integralFull (m : RooAddModel) (subCode : List Int) (nset : NSet) :
    Rat × Bool :=
  let r := intVL m.models m.coefs subCode nset 0 1
  (r.1, decide (r.2 < 0 ∨ r.2 > 1))

/-- `RooAddModel::analyticalIntegralWN(code, normSet)` (lines 549-592):
code 0 falls back to `getVal()` (the plain value; the base-class caching
and unit normalization around it are external); an unknown nonzero code
hits `assert(0)` (`none` here); otherwise the retrieved plan is replayed
by `integralFull`. -/
def RooAddModel.analyticalIntegralWN (m : RooAddModel) (reg : AICRegistry)
    (code : Int) (nset : NSet) : Option (Rat × Bool) :=
  if code = 0 then some (m.evaluate, false)
  else
    match reg.retrieve (code - 1).toNat with
    | none => none
    | some subCode => some (m.integralFull subCode nset)

/-- A sequence of degeneracy-diagnosing calls on one instance: `true`
stands for an `evaluate()` call (rate-limited warning, mutates
`_errorCount`), `false` for an `analyticalIntegralWN` call with the
negotiated plan `subCode` (warning not rate-limited, counter untouched).
Returns the list of warning-emitted flags, one per call. -/
def diagTrace (m : RooAddModel) (subCode : List Int) (nset : NSet) :
    List Bool → Nat → List Bool
  | [], _ => []
  | true :: ks, n =>
      let r := m.evaluateFull n
      r.2.1 :: diagTrace m subCode nset ks r.2.2
  | false :: ks, n =>
      (m.integralFull subCode nset).2 :: diagTrace m subCode nset ks n

/-- A concrete component with constant behaviour: value `e`,
normalization `e`, basis code 0 for every basis name, integration
capability "grant the whole request with code 0", integral value `e`,
convolution variable `v`.  Building block for concrete witness inputs. -/
def constModel (e : Rat) (v : Nat) : Model :=
  { eval := e
    normv := fun _ => e
    basisCodeFn := fun _ => 0
    tryIntegrate := fun s _ => (0, s)
    integrate := fun _ _ => e
    convVarV := v }

/-- Witness component A: advertises the joint request `{1, 2}` (code 7)
but no integral at all for any other set — the inconsistent advertiser of
the spec's negotiation scenario. -/
def mIntA : Model :=
  { constModel 3 1 with
    tryIntegrate := fun s _ => if s = ({1, 2} : VarSet) then (7, s) else (0, ∅) }

/-- Witness component B: can integrate only variable 2 of any request
(code 5). -/
def mIntB : Model :=
  { constModel 4 1 with tryIntegrate := fun s _ => (5, s ∩ ({2} : VarSet)) }

/-- Witness component C: integrates any request, code 3. -/
def mIntC : Model :=
  { constModel 3 1 with tryIntegrate := fun s _ => (3, s) }

/-- Witness component D: integrates any request, code 4. -/
def mIntD : Model :=
  { constModel 4 1 with tryIntegrate := fun s _ => (4, s) }

/-- Witness component E: grants nothing ever. -/
def mIntE : Model :=
  { constModel 5 1 with tryIntegrate := fun _ _ => (0, (∅ : VarSet)) }

/-- Composite whose negotiation fails in pass 2: pass 1 on request
`{1, 2}` prunes to `{2}`, on which `mIntA` returns code 0. -/
def negFailModel : RooAddModel :=
  { models := [mIntA, mIntB], coefs := [1/2], basis := none,
    basisCodeVal := 0, isCopy := false }

/-- Composite whose negotiation succeeds on request `{1, 2}` with
per-component codes `[3, 4]`. -/
def negOkModel : RooAddModel :=
  { models := [mIntC, mIntD], coefs := [1/2], basis := none,
    basisCodeVal := 0, isCopy := false }

/-- Composite whose pass-1 intersection is empty (component `mIntE`
advertises nothing). -/
def negEmptyModel : RooAddModel :=
  { models := [mIntC, mIntE], coefs := [1/2], basis := none,
    basisCodeVal := 0, isCopy := false }

/-- A fresh, empty code registry. -/
def emptyReg : AICRegistry := ⟨[]⟩

/-- Component that reports basis code 5 for every basis name. -/
def mBasis5 : Model :=
  { constModel 4 1 with basisCodeFn := fun _ => 5 }

/-- Composite whose first component does not support basis "b"
(code 0) while its second does (code 5): input exhibiting the
`basisCode` defect. -/
def basisBugModel : RooAddModel :=
  { models := [constModel 3 1, mBasis5], coefs := [1/2], basis := none,
    basisCodeVal := 0, isCopy := false }

/-- A numerically degenerate composite: coefficient 2 drives the derived
last weight to `1 - 2 = -1`, outside `[0, 1]`, in both the evaluate and
the analytic-integral running sums. -/
def demoDegen : RooAddModel :=
  { models := [constModel 3 1, constModel 4 1], coefs := [2], basis := none,
    basisCodeVal := 0, isCopy := false }

/-- A two-component plain composite used as convolution witness. -/
def demoConvBase : RooAddModel :=
  { models := [constModel 3 1, constModel 4 1], coefs := [1/2], basis := none,
    basisCodeVal := 0, isCopy := false }

/-- A component-convolution dispatch (the external virtual
`RooResolutionModel::convolution`) for witnesses: shifts the component
value by 10 and keeps its convolution variable. -/
def demoCF : Model → BasisFun → Model :=
  fun mo _ => constModel (mo.eval + 10) mo.convVarV

/-- A basis function on variable 1 named "b". -/
def demoBasis : BasisFun := ⟨1, "b"⟩

/-- A basis function on variable 2 (mismatching `demoConvBase`). -/
def demoBasisBad : BasisFun := ⟨2, "b"⟩

/-- The composite produced by convolving `demoConvBase` with `demoBasis`
under `demoCF`: per-component convolutions paired with the original
coefficient, tagged with the basis (basis code 0: the clones report no
basis capability). -/
def demoConvResult : RooAddModel :=
  { models := [demoCF (constModel 3 1) demoBasis, demoCF (constModel 4 1) demoBasis]
    coefs := [1/2]
    basis := some demoBasis
    basisCodeVal := 0
    isCopy := false }

/-- Closed form of the `evaluate()` running sum: on a well-formed
component list (paired part `ms`, unpaired last model `ml`) it computes
the coefficient-weighted sum of the paired models plus the last model
weighted by the remaining coefficient budget. -/
theorem evalVL_closed (cs : List Rat) : ∀ (ms : List Model) (ml : Model) (v l : Rat),
    ms.length = cs.length →
    evalVL (ms ++ [ml]) cs v l =
      (v + (List.zipWith (fun c mo => c * mo.eval) cs ms).sum + ml.eval * (l - cs.sum),
        l - cs.sum) := by
  induction cs with
  | nil =>
    intro ms ml v l h
    have hms : ms = [] := List.eq_nil_of_length_eq_zero h
    subst hms
    simp only [List.nil_append, evalVL, List.zipWith_nil_left, List.sum_nil]
    refine Prod.ext ?_ ?_ <;> simp
  | cons c cs ih =>
    intro ms ml v l h
    match ms with
    | [] => simp at h
    | m :: ms =>
      simp only [List.length_cons, Nat.succ.injEq] at h
      simp only [List.cons_append, evalVL, List.append_eq]
      rw [ih ms ml _ _ h]
      simp only [List.zipWith_cons_cons, List.sum_cons]
      refine Prod.ext ?_ ?_ <;> simp <;> ring

/-- C1: for every composite with N models and N-1 coefficients,
`evaluate()` returns the weighted sum
`Σ c_i·m_i + (1 - Σ c_i)·m_N`; the statement quantifies over ALL
coefficient values, so the derived last weight `1 - Σ c_i` is not
clamped to `[0,1]` and the value is returned even when that weight is
out of range. -/
theorem C1_evaluate_weighted_sum (ms : List Model) (ml : Model) (cs : List Rat)
    (b : Option BasisFun) (bc : Int) (ic : Bool) (h : ms.length = cs.length) :
    RooAddModel.evaluate ⟨ms ++ [ml], cs, b, bc, ic⟩ =
      (List.zipWith (fun c mo => c * mo.eval) cs ms).sum + (1 - cs.sum) * ml.eval := by
  show (evalVL (ms ++ [ml]) cs 0 1).1 = _
  rw [evalVL_closed cs ms ml 0 1 h]
  ring

/-- Witness for C1: a 2-model composite with the out-of-range
coefficient 2 (derived last weight -1) still returns the unclamped
weighted sum. -/
theorem C1_witness :
    RooAddModel.evaluate ⟨[constModel 3 1] ++ [constModel 4 1], [(2 : Rat)], none, 0, false⟩ =
      (List.zipWith (fun c mo => c * mo.eval) [(2 : Rat)] [constModel 3 1]).sum +
        (1 - ([(2 : Rat)]).sum) * (constModel 4 1).eval :=
  C1_evaluate_weighted_sum [constModel 3 1] (constModel 4 1) [2] none 0 false (by decide)

/-- The pass-1 fold over any starting accumulator: a variable survives
iff it was in the accumulator and is either outside the requested set or
advertised by every component visited. -/
theorem pass1_foldl_filter (allVars : VarSet) (nset : NSet) :
    ∀ (ms : List Model) (acc : VarSet),
      ms.foldl (fun a mo => a \ (allVars \ (mo.tryIntegrate allVars nset).2)) acc =
        acc.filter
          (fun v => v ∉ allVars ∨ ∀ mo ∈ ms, v ∈ (mo.tryIntegrate allVars nset).2) := by
  intro ms
  induction ms with
  | nil =>
    intro acc
    ext v
    simp
  | cons m ms ih =>
    intro acc
    simp only [List.foldl_cons]
    rw [ih]
    ext v
    simp only [Finset.mem_filter, Finset.mem_sdiff, List.mem_cons]
    constructor
    · rintro ⟨⟨hacc, hnot⟩, hrest⟩
      refine ⟨hacc, ?_⟩
      by_cases hin : v ∈ allVars
      · rcases hrest with hout | hall
        · exact absurd hin hout
        · refine Or.inr ?_
          rintro mo (rfl | hmo)
          · by_contra hne
            exact hnot ⟨hin, hne⟩
          · exact hall mo hmo
      · exact Or.inl hin
    · rintro ⟨hacc, hout | hall⟩
      · exact ⟨⟨hacc, fun hc => hout hc.1⟩, Or.inl hout⟩
      · exact ⟨⟨hacc, fun hc => hc.2 (hall m (Or.inl rfl))⟩,
          Or.inr fun mo hmo => hall mo (Or.inr hmo)⟩

/-- Pass 1 computes the intersection of all components' advertised
integrable variables, restricted to the requested set. -/
theorem pass1_eq_filter (ms : List Model) (allVars : VarSet) (nset : NSet) :
    pass1 ms allVars nset =
      allVars.filter (fun v => ∀ mo ∈ ms, v ∈ (mo.tryIntegrate allVars nset).2) := by
  unfold pass1
  rw [pass1_foldl_filter]
  ext v
  simp only [Finset.mem_filter]
  tauto

/-- C2: after pass 1 the granted set equals the intersection over all
components of the variables each advertises as integrable, restricted to
the requested set; an empty intersection makes the whole negotiation
return master code 0; and the pass-1 result is independent of the order
of the components. -/
theorem C2_pass1_intersection :
    (∀ (ms : List Model) (allVars : VarSet) (nset : NSet),
        pass1 ms allVars nset =
          allVars.filter (fun v => ∀ mo ∈ ms, v ∈ (mo.tryIntegrate allVars nset).2)) ∧
    (∀ (m : RooAddModel) (reg : AICRegistry) (allVars analVars : VarSet) (nset : NSet),
        pass1 m.models allVars nset = ∅ →
        (m.getAnalyticalIntegralWN reg allVars analVars nset).1 = 0) ∧
    (∀ (ms ms' : List Model) (allVars : VarSet) (nset : NSet), ms.Perm ms' →
        pass1 ms allVars nset = pass1 ms' allVars nset) := by
  refine ⟨pass1_eq_filter, ?_, ?_⟩
  · intro m reg allVars analVars nset h
    unfold RooAddModel.getAnalyticalIntegralWN
    by_cases hb : m.basisCodeVal ≠ 0
    · simp [hb]
    · simp [hb, h]
  · intro ms ms' allVars nset hp
    rw [pass1_eq_filter, pass1_eq_filter]
    ext v
    simp only [Finset.mem_filter]
    refine and_congr_right fun _ => ?_
    exact ⟨fun h mo hm => h mo (hp.mem_iff.mpr hm), fun h mo hm => h mo (hp.mem_iff.mp hm)⟩

/-- Witness for C2: the intersection form on a concrete pair of
components, a concrete empty-intersection negotiation returning 0, and
order independence for a concrete swap. -/
theorem C2_witness :
    pass1 [mIntA, mIntB] {1, 2} none =
      Finset.filter
        (fun v => ∀ mo ∈ [mIntA, mIntB], v ∈ (mo.tryIntegrate {1, 2} none).2) {1, 2} ∧
    (negEmptyModel.getAnalyticalIntegralWN emptyReg {1, 2} ∅ none).1 = 0 ∧
    pass1 [mIntC, mIntE] {1, 2} none = pass1 [mIntE, mIntC] {1, 2} none :=
  ⟨C2_pass1_intersection.1 [mIntA, mIntB] {1, 2} none,
   C2_pass1_intersection.2.1 negEmptyModel emptyReg {1, 2} ∅ none (by decide),
   C2_pass1_intersection.2.2 [mIntC, mIntE] [mIntE, mIntC] {1, 2} none
     (List.Perm.swap mIntE mIntC [])⟩

/-- C3: if any component returns capability code 0 for the pruned
pass-1 set, the entire negotiation returns master code 0 — no partial
success for the other components or variables. -/
theorem C3_pass2_failure_total (m : RooAddModel) (reg : AICRegistry)
    (allVars analVars : VarSet) (nset : NSet) (mo : Model)
    (hmem : mo ∈ m.models)
    (hzero : (mo.tryIntegrate (pass1 m.models allVars nset) nset).1 = 0) :
    (m.getAnalyticalIntegralWN reg allVars analVars nset).1 = 0 := by
  unfold RooAddModel.getAnalyticalIntegralWN
  by_cases hb : m.basisCodeVal ≠ 0
  · simp [hb]
  · have hany : (pass2Codes m.models (pass1 m.models allVars nset) nset).any
        (fun c => decide (c = 0)) = true := by
      rw [List.any_eq_true]
      refine ⟨(mo.tryIntegrate (pass1 m.models allVars nset) nset).1,
        List.mem_map_of_mem _ hmem, ?_⟩
      simp [hzero]
    by_cases hc : (pass1 m.models allVars nset).card = 0
    · simp [hb, hc]
    · simp [hb, hc, hany]

/-- Witness for C3: on request `{1, 2}`, component `mIntA` advertises
the joint set but returns code 0 for the pruned set `{2}`; the composite
negotiation returns 0. -/
theorem C3_witness :
    (negFailModel.getAnalyticalIntegralWN emptyReg {1, 2} ∅ none).1 = 0 :=
  C3_pass2_failure_total negFailModel emptyReg {1, 2} ∅ none mIntA
    (List.mem_cons_self mIntA [mIntB]) (by decide)

/-- C10: failed negotiation is atomic for its output set — whenever
`getAnalyticalIntegralWN` returns master code 0 (disabled by a nonzero
basis code, empty pass-1 intersection, or pass-2 inconsistency), the
caller-supplied output set `analVars` is returned unchanged. -/
theorem C10_failure_atomic (m : RooAddModel) (reg : AICRegistry)
    (allVars analVars : VarSet) (nset : NSet)
    (h : (m.getAnalyticalIntegralWN reg allVars analVars nset).1 = 0) :
    (m.getAnalyticalIntegralWN reg allVars analVars nset).2.1 = analVars := by
  unfold RooAddModel.getAnalyticalIntegralWN at h ⊢
  by_cases hb : m.basisCodeVal ≠ 0
  · simp [hb]
  · by_cases hc : (pass1 m.models allVars nset).card = 0
    · simp [hb, hc]
    · by_cases ha : (pass2Codes m.models (pass1 m.models allVars nset) nset).any
          (fun c => decide (c = 0)) = true
      · simp [hb, hc, ha]
      · exfalso
        simp only [hb, hc, ha] at h
        simp at h
        omega

/-- Witness for C10: the pass-2-failing negotiation leaves a nonempty
caller-supplied output set `{9}` untouched. -/
theorem C10_witness :
    (negFailModel.getAnalyticalIntegralWN emptyReg {1, 2} {9} none).2.1 = {9} :=
  C10_failure_atomic negFailModel emptyReg {1, 2} {9} none (by decide)

/-- C6: the code registry round-trips (`retrieve` after `store` returns
the stored array), and a successful negotiation returns master code =
registry index of the stored plan + 1 (so master code 0 never denotes a
stored plan) with the pass-2 code array retrievable at that index. -/
theorem C6_registry_round_trip :
    (∀ (reg : AICRegistry) (codes : List Int),
        ((reg.store codes).2).retrieve (reg.store codes).1 = some codes) ∧
    (∀ (m : RooAddModel) (reg : AICRegistry) (allVars analVars : VarSet) (nset : NSet),
        (m.getAnalyticalIntegralWN reg allVars analVars nset).1 ≠ 0 →
        (m.getAnalyticalIntegralWN reg allVars analVars nset).1 =
            (reg.plans.length : Int) + 1 ∧
          ((m.getAnalyticalIntegralWN reg allVars analVars nset).2.2).retrieve
              reg.plans.length =
            some (pass2Codes m.models (pass1 m.models allVars nset) nset)) := by
  constructor
  · intro reg codes
    show (⟨reg.plans ++ [codes]⟩ : AICRegistry).retrieve reg.plans.length = some codes
    unfold AICRegistry.retrieve
    simp [List.get?_eq_getElem?, List.getElem?_concat_length]
  · intro m reg allVars analVars nset h
    unfold RooAddModel.getAnalyticalIntegralWN at h ⊢
    by_cases hb : m.basisCodeVal ≠ 0
    · simp [hb] at h
    · by_cases hc : (pass1 m.models allVars nset).card = 0
      · simp [hb, hc] at h
      · by_cases ha : (pass2Codes m.models (pass1 m.models allVars nset) nset).any
            (fun c => decide (c = 0)) = true
        · simp [hb, hc, ha] at h
        · refine ⟨?_, ?_⟩
          · simp [hb, hc, ha, AICRegistry.store]
          · simp [hb, hc, ha, AICRegistry.store, AICRegistry.retrieve,
              List.get?_eq_getElem?, List.getElem?_concat_length]

/-- Witness for C6: the successful concrete negotiation of `negOkModel`
over `{1, 2}` stores plan `[3, 4]` at index 0 of the empty registry and
returns master code 1. -/
theorem C6_witness :
    (negOkModel.getAnalyticalIntegralWN emptyReg {1, 2} ∅ none).1 =
        (emptyReg.plans.length : Int) + 1 ∧
      ((negOkModel.getAnalyticalIntegralWN emptyReg {1, 2} ∅ none).2.2).retrieve
          emptyReg.plans.length =
        some (pass2Codes negOkModel.models (pass1 negOkModel.models {1, 2} none) none) :=
  C6_registry_round_trip.2 negOkModel emptyReg {1, 2} ∅ none (by decide)

/-- C4 (code defect): on a composite whose FIRST component does not
support basis "b" (code 0) while its last does (code 5), the
implementation returns 1 — because `code` is declared `Bool_t` and the
`first` flag is never cleared — whereas the function's own documentation
("the basis code of the first component model will be returned, if the
basis is supported by all components; otherwise 0") requires 0, as
`basisCodeDocumented` computes. -/
theorem C4_basisCode_defect :
    basisBugModel.basisCode "b" = 1 ∧
    basisCodeDocumented basisBugModel.models "b" = 0 ∧
    (constModel 3 1).basisCodeFn "b" = 0 ∧ mBasis5.basisCodeFn "b" = 5 := by
  refine ⟨?_, ?_, ?_, ?_⟩ <;> rfl

/-- Every call of an evaluate-only degenerate-call sequence starting at
counter value `n` warns exactly while the incremented counter stays at
most 10. -/
theorem diagTrace_eval_aux (m : RooAddModel) (sub : List Int) (nset : NSet)
    (hev : m.evalLastCoef < 0 ∨ m.evalLastCoef > 1) :
    ∀ (L n : Nat),
      diagTrace m sub nset (List.replicate L true) n =
        (List.range L).map (fun k => decide (n + k + 1 ≤ 10)) := by
  intro L
  induction L with
  | zero => intro n; rfl
  | succ L ih =>
    intro n
    rw [List.replicate_succ, List.range_succ_eq_map]
    show (m.evaluateFull n).2.1 :: diagTrace m sub nset (List.replicate L true)
        (m.evaluateFull n).2.2 = _
    rw [RooAddModel.evaluateFull, if_pos hev]
    rw [ih (n + 1), List.map_cons, List.map_map]
    refine congrArg₂ _ ?_ ?_
    · exact decide_eq_decide.mpr (by omega)
    · refine List.map_congr_left fun k _ => ?_
      simp only [Function.comp_apply]
      exact decide_eq_decide.mpr (by omega)

/-- Every call of an integral-only degenerate-call sequence warns,
independent of the counter: the warning of `analyticalIntegralWN` is not
rate-limited. -/
theorem diagTrace_integral_aux (m : RooAddModel) (sub : List Int) (nset : NSet)
    (hint : (intVL m.models m.coefs sub nset 0 1).2 < 0 ∨
      (intVL m.models m.coefs sub nset 0 1).2 > 1) :
    ∀ (L n : Nat),
      diagTrace m sub nset (List.replicate L false) n = List.replicate L true := by
  intro L
  induction L with
  | zero => intro n; rfl
  | succ L ih =>
    intro n
    rw [List.replicate_succ, List.replicate_succ]
    show (m.integralFull sub nset).2 :: diagTrace m sub nset (List.replicate L false) n = _
    rw [ih n]
    refine congrArg₂ _ ?_ rfl
    simp only [RooAddModel.integralFull]
    exact decide_eq_true hint

/-- C5 counterexample: a sequence of 11 degenerate occurrences reached
through `analyticalIntegralWN` (derived last weight -1, so each call is
a degeneracy occurrence) emits the diagnostic on ALL 11 calls — the 11th
occurrence is NOT silenced, refuting the claim that the diagnostic
(during evaluate or analytic integral) is silenced from occurrence 11
onward. -/
theorem C5_counterexample_integral_not_limited :
    (intVL demoDegen.models demoDegen.coefs [5, 5] none 0 1).2 < 0 ∧
    diagTrace demoDegen [5, 5] none (List.replicate 11 false) 0 =
      List.replicate 11 true := by
  constructor
  · norm_num [demoDegen, constModel, intVL]
  · norm_num [diagTrace, RooAddModel.integralFull, intVL, demoDegen, constModel,
      List.replicate]

/-- C5 amended: the rate limit applies only to `evaluate()` — on a
degenerate instance an evaluate-only call sequence warns exactly on
occurrences 1 through 10 and is silent from occurrence 11 onward, while
an `analyticalIntegralWN`-only sequence warns on every occurrence; in
both entry points the (possibly unphysical) value is still returned. -/
theorem C5_diag_rate_limit (m : RooAddModel) (sub : List Int) (nset : NSet) (L : Nat)
    (hev : m.evalLastCoef < 0 ∨ m.evalLastCoef > 1)
    (hint : (intVL m.models m.coefs sub nset 0 1).2 < 0 ∨
      (intVL m.models m.coefs sub nset 0 1).2 > 1) :
    diagTrace m sub nset (List.replicate L true) 0 =
        (List.range L).map (fun k => decide (k + 1 ≤ 10)) ∧
      diagTrace m sub nset (List.replicate L false) 0 = List.replicate L true ∧
      (∀ n, (m.evaluateFull n).1 = m.evaluate) ∧
      (m.integralFull sub nset).1 = (intVL m.models m.coefs sub nset 0 1).1 := by
  refine ⟨?_, diagTrace_integral_aux m sub nset hint L 0, ?_, rfl⟩
  · rw [diagTrace_eval_aux m sub nset hev L 0]
    refine List.map_congr_left fun k _ => decide_eq_decide.mpr (by omega)
  · intro n
    rw [RooAddModel.evaluateFull]
    split <;> rfl

/-- Witness for the amended C5: on the concrete degenerate composite, 12
evaluate calls warn on the first 10 and are silent on calls 11 and 12,
while 12 integral calls all warn. -/
theorem C5_witness :
    diagTrace demoDegen [5, 5] none (List.replicate 12 true) 0 =
        (List.range 12).map (fun k => decide (k + 1 ≤ 10)) ∧
      diagTrace demoDegen [5, 5] none (List.replicate 12 false) 0 =
        List.replicate 12 true ∧
      (∀ n, (demoDegen.evaluateFull n).1 = demoDegen.evaluate) ∧
      (demoDegen.integralFull [5, 5] none).1 =
        (intVL demoDegen.models demoDegen.coefs [5, 5] none 0 1).1 :=
  C5_diag_rate_limit demoDegen [5, 5] none 12
    (by left; norm_num [RooAddModel.evalLastCoef, evalVL, demoDegen, constModel])
    (by left; norm_num [intVL, demoDegen, constModel])

/-- C7: construction from raw lists fails whenever the number of models
is not exactly one greater than the number of coefficients; and a
conforming 3-model, 2-coefficient list (with consistent convolution
variables) succeeds. -/
theorem C7_ctor_arity :
    (∀ (ms : List Model) (cs : List Rat), ms.length ≠ cs.length + 1 →
        mkRooAddModel ms cs = none) ∧
    (mkRooAddModel [constModel 1 1, constModel 2 1, constModel 3 1]
        [1/3, 1/3]).isSome = true := by
  constructor
  · intro ms cs h
    unfold mkRooAddModel
    rw [if_pos h]
  · rfl

/-- Witness for C7: 3 models with 3 coefficients fail; 3 models with 2
coefficients succeed. -/
theorem C7_witness :
    mkRooAddModel [constModel 1 1, constModel 2 1, constModel 3 1]
        [1/3, 1/3, 1/3] = none ∧
      (mkRooAddModel [constModel 1 1, constModel 2 1, constModel 3 1]
        [1/3, 1/3]).isSome = true :=
  ⟨C7_ctor_arity.1 [constModel 1 1, constModel 2 1, constModel 3 1]
      [1/3, 1/3, 1/3] (by decide),
   C7_ctor_arity.2⟩

/-- A successful raw-list construction returns exactly the given
components with no basis, basis code 0 and ownership of its parts. -/
theorem mkRooAddModel_some (ms : List Model) (cs : List Rat) (r : RooAddModel)
    (h : mkRooAddModel ms cs = some r) :
    r.models = ms ∧ r.coefs = cs ∧ r.basis = none ∧ r.basisCodeVal = 0 := by
  unfold mkRooAddModel at h
  split at h
  · exact absurd h (by simp)
  · split at h
    · exact absurd h (by simp)
    · split at h
      · injection h with h'
        subst h'
        exact ⟨rfl, rfl, rfl, rfl⟩
      · exact absurd h (by simp)

/-- A successful `convolution` call returns the per-component
convolutions paired with the original coefficients and tagged with the
basis. -/
theorem convolution_some (m : RooAddModel) (cf : Model → BasisFun → Model)
    (basis : BasisFun) (r : RooAddModel) (h : m.convolution cf basis = some r) :
    r.models = m.models.map (fun mo => cf mo basis) ∧ r.coefs = m.coefs ∧
      r.basis = some basis := by
  unfold RooAddModel.convolution at h
  by_cases hv : basis.primaryVar ≠ m.convVar
  · rw [if_pos hv] at h
    exact absurd h (by simp)
  · rw [if_neg hv] at h
    cases hmk : mkRooAddModel (m.models.map fun mo => cf mo basis) m.coefs with
    | none => rw [hmk] at h; exact absurd h (by simp)
    | some convSum =>
      rw [hmk] at h
      injection h with h'
      obtain ⟨h1, h2, _, _⟩ := mkRooAddModel_some _ _ _ hmk
      subst h'
      exact ⟨h1, h2, rfl⟩

/-- C8: convolving a composite propagates the basis — on a variable
mismatch it returns failure (no crash); on success it returns a fresh
composite of the per-component convolved clones paired with the same
original coefficients and tagged with the basis; and for the 2-model,
1-coefficient case the result's `evaluate()` equals
`c·conv(m1) + (1-c)·conv(m2)` for any coefficient value. -/
theorem C8_convolution :
    (∀ (m : RooAddModel) (cf : Model → BasisFun → Model) (basis : BasisFun),
        basis.primaryVar ≠ m.convVar → m.convolution cf basis = none) ∧
    (∀ (m : RooAddModel) (cf : Model → BasisFun → Model) (basis : BasisFun)
        (r : RooAddModel), m.convolution cf basis = some r →
        r.models = m.models.map (fun mo => cf mo basis) ∧ r.coefs = m.coefs ∧
          r.basis = some basis) ∧
    (∀ (m1 m2 : Model) (c : Rat) (cf : Model → BasisFun → Model) (basis : BasisFun)
        (b0 : Option BasisFun) (bc0 : Int) (ic0 : Bool) (r : RooAddModel),
        RooAddModel.convolution ⟨[m1, m2], [c], b0, bc0, ic0⟩ cf basis = some r →
        r.evaluate = c * (cf m1 basis).eval + (1 - c) * (cf m2 basis).eval) := by
  refine ⟨?_, fun m cf basis r h => convolution_some m cf basis r h, ?_⟩
  · intro m cf basis hne
    unfold RooAddModel.convolution
    rw [if_pos hne]
  · intro m1 m2 c cf basis b0 bc0 ic0 r h
    obtain ⟨h1, h2, _⟩ := convolution_some _ cf basis r h
    unfold RooAddModel.evaluate
    rw [h1, h2]
    simp [evalVL]
    ring

/-- Witness for C8: the concrete 2-model composite convolved with a
matching basis yields the convolved clone pair with the original
coefficient and the claimed weighted sum; the mismatching basis fails. -/
theorem C8_witness :
    RooAddModel.convolution demoConvBase demoCF demoBasisBad = none ∧
    (demoConvResult.models = demoConvBase.models.map (fun mo => demoCF mo demoBasis) ∧
      demoConvResult.coefs = demoConvBase.coefs ∧
      demoConvResult.basis = some demoBasis) ∧
    demoConvResult.evaluate =
      (1/2 : Rat) * (demoCF (constModel 3 1) demoBasis).eval +
        (1 - 1/2) * (demoCF (constModel 4 1) demoBasis).eval :=
  ⟨C8_convolution.1 demoConvBase demoCF demoBasisBad (by decide),
   C8_convolution.2.1 demoConvBase demoCF demoBasis demoConvResult rfl,
   C8_convolution.2.2 (constModel 3 1) (constModel 4 1) (1/2) demoCF demoBasis
     none 0 false demoConvResult rfl⟩

/-- The two normalization running sums (the textual duplicates in
`getNorm` and `getNormSpecial`) compute identical values. -/
theorem normVL_eq_normVLSpec :
    ∀ (ms : List Model) (cs : List Rat) (nset : NSet) (a b : Rat),
      normVL ms cs nset a b = normVLSpec ms cs nset a b := by
  intro ms
  induction ms with
  | nil => intro cs nset a b; cases cs <;> rfl
  | cons mo ms ih =>
    intro cs nset a b
    cases cs with
    | nil => rfl
    | cons c cs => exact ih cs nset (a + mo.normv nset * c) (b - c)

/-- C9: `getNormSpecial` computes the same numeric result as `getNorm`
for every context set — with a basis both compute the identical
running-coefficient weighted sum of component normalizations, and
without a basis both delegate to the generic plain-density
normalization path. -/
theorem C9_getNormSpecial_equiv :
    (∀ (m : RooAddModel) (generic : NSet → Rat) (nset : NSet),
        m.getNorm generic nset = m.getNormSpecial generic nset) ∧
    (∀ (m : RooAddModel) (generic : NSet → Rat) (nset : NSet), m.basis = none →
        m.getNorm generic nset = generic nset ∧
          m.getNormSpecial generic nset = generic nset) := by
  constructor
  · intro m generic nset
    unfold RooAddModel.getNorm RooAddModel.getNormSpecial
    cases m.basis <;> simp [normVL_eq_normVLSpec]
  · intro m generic nset h
    unfold RooAddModel.getNorm RooAddModel.getNormSpecial
    rw [h]
    exact ⟨rfl, rfl⟩

/-- Witness for C9: on a concrete basis-free composite both entry points
return the generic normalization. -/
theorem C9_witness :
    demoConvBase.getNorm (fun _ => 7) none =
        demoConvBase.getNormSpecial (fun _ => 7) none ∧
      demoConvBase.getNorm (fun _ => 7) none = 7 :=
  ⟨C9_getNormSpecial_equiv.1 demoConvBase (fun _ => 7) none,
   (C9_getNormSpecial_equiv.2 demoConvBase (fun _ => 7) none rfl).1⟩
